import Mathlib

/-!
# Verification of manifoldco/go-signature

A shallow embedding of `signature.go` (package `signature`): canonicalization
of HTTP requests, the two-hop Ed25519 signature-chain validation, the
verifier pipeline, and the middleware adapter.

Modelling conventions:
* Go strings are byte strings; every string this package manipulates is
  ASCII, for which Lean `String`/`List Char` coincides with Go's bytes
  (UTF-8 byte order equals code-point order, so lexicographic comparisons
  also agree).
* The Ed25519 primitive (`golang.org/x/crypto/ed25519`) is external to the
  repository; it is embedded at its documented interface: `Verify` panics
  when the public key is not exactly 32 bytes, returns `false` for a
  signature that is not exactly 64 bytes or whose last byte has one of its
  three top bits set, and otherwise performs the cryptographic check, which
  is kept abstract as a parameter `core`.  A panic is modelled as `none`.
* The base64 codec (`github.com/manifoldco/go-base64`) decodes unpadded
  URL-safe base64 via Go's `encoding/base64` `RawURLEncoding`, which maps
  the URL-safe alphabet, ignores CR and LF anywhere in the input, rejects
  any other character outside the alphabet, and rejects an encoding whose
  length is 1 mod 4.  Decoding the empty string succeeds with empty bytes.
* `io.Reader` failures are not modelled: a request body is a pure byte
  string, so the body-read error branches of `Canonize` and the middleware
  cannot fire in the model.
-/

namespace GoSignature

/-! ## Byte-string primitives (Go `strings` package) -/

/-- Go `strings.Split(s, sep)` for a one-character separator (the only form
this package uses), as a structural recursion on the character list. -/
def splitCh (sep : Char) : List Char → List (List Char)
  | [] => [[]]
  | c :: cs =>
    let r := splitCh sep cs
    if c = sep then [] :: r
    else
      match r with
      | [] => [[c]]
      | g :: gs => (c :: g) :: gs

/-- Go `strings.Split` on a single-character separator, on `String`. -/
def goSplit (s : String) (sep : Char) : List String :=
  (splitCh sep s.data).map String.mk

/-- Go `unicode.IsSpace`: the white-space code points recognised by
`strings.TrimSpace`. -/
def goIsSpace (c : Char) : Bool :=
  let n := c.toNat
  n = 32 || n = 9 || n = 10 || n = 11 || n = 12 || n = 13 ||
  n = 133 || n = 160 || n = 5760 || (8192 ≤ n && n ≤ 8202) ||
  n = 8232 || n = 8233 || n = 8239 || n = 8287 || n = 12288

/-- Go `strings.TrimSpace`. -/
def trimSpace (s : String) : String :=
  ⟨((s.data.dropWhile goIsSpace).reverse.dropWhile goIsSpace).reverse⟩

/-- Go `strings.ToLower` (all data lowered by this package is ASCII). -/
def goToLower (s : String) : String :=
  ⟨s.data.map Char.toLower⟩

/-- Lexicographic byte-order comparison of Go strings, the order used by
`sort.Strings`. -/
def lexLe : List Char → List Char → Bool
  | [], _ => true
  | _ :: _, [] => false
  | a :: as, b :: bs =>
    if a.toNat < b.toNat then true
    else if b.toNat < a.toNat then false
    else lexLe as bs

/-- The byte order on `String`, as a relation. -/
def strLe (a b : String) : Prop :=
  lexLe a.data b.data = true

instance : DecidableRel strLe :=
  fun a b => inferInstanceAs (Decidable (lexLe a.data b.data = true))

/-- Go `sort.Strings` (ascending lexicographic byte order).  Any sorting
algorithm computes the same list, as sorted permutations are unique. -/
def sortStrings (xs : List String) : List String :=
  List.insertionSort strLe xs

/-- Go `strings.Replace(s, old, new, -1)` for a one-character pattern (the
only form `NewVerifier` uses), i.e. per-character substitution. -/
def replaceChar (a b : Char) (s : String) : String :=
  ⟨s.data.map fun c => if c = a then b else c⟩

/-- Go `strings.TrimRight(s, "=")`. -/
def trimRightEq (s : String) : String :=
  ⟨(s.data.reverse.dropWhile (fun c => c = '=')).reverse⟩

/-! ## `net/textproto` canonical MIME header keys -/

/-- Go `net/textproto` `validHeaderFieldByte` on a code point: the HTTP
token characters (digits, letters, and `! # $ % & ' * + - . ^ _ \x60 | ~`). -/
def validN (n : Nat) : Bool :=
  (48 ≤ n && n ≤ 57) || (65 ≤ n && n ≤ 90) || (97 ≤ n && n ≤ 122) ||
  n = 33 || n = 35 || n = 36 || n = 37 || n = 38 || n = 39 || n = 42 ||
  n = 43 || n = 45 || n = 46 || n = 94 || n = 95 || n = 96 || n = 124 ||
  n = 126

/-- Go `validHeaderFieldByte` on a character. -/
def validHeaderFieldChar (c : Char) : Bool :=
  validN c.toNat

/-- The case-mapping loop of `canonicalMIMEHeaderKey`: uppercase the first
letter and each letter following a dash, lowercase every other letter. -/
def canonCaseMap : Bool → List Char → List Char
  | _, [] => []
  | upper, c :: cs =>
    let c2 := if upper then c.toUpper else c.toLower
    c2 :: canonCaseMap (c2 = '-') cs

/-- Go `http.CanonicalHeaderKey` / `textproto.CanonicalMIMEHeaderKey`:
returns the argument unchanged if it contains a non-token character,
otherwise its canonical case form. -/
def canonicalHeaderKey (s : String) : String :=
  if s.data.all validHeaderFieldChar then ⟨canonCaseMap true s.data⟩ else s

/-! ## HTTP request model -/

/-- The parts of `net/url.URL` that `Canonize` consumes.  `escapedPath`
holds the result of the external `URL.EscapedPath()`. -/
structure URL where
  escapedPath : String
  rawQuery : String
  host : String
deriving DecidableEq

/-- The parts of `net/http.Request` that this package consumes.  `header`
models `http.Header`, a map from canonical-form header keys to value
lists; the map is rendered as an association list with lookup by key. -/
structure Request where
  method : String
  url : URL
  host : String
  header : List (String × List String)
deriving DecidableEq

/-- Indexing a Go map of header values: absent keys yield the empty slice. -/
def headerLookup (hdr : List (String × List String)) (key : String) : List String :=
  (hdr.lookup key).getD []

/-- Go `http.Header.Get`: canonicalize the key, return the first value, or
the empty string when there is none. -/
def headerGet (hdr : List (String × List String)) (key : String) : String :=
  match headerLookup hdr (canonicalHeaderKey key) with
  | [] => ""
  | v :: _ => v

/-! ## Canonize -/

/-- The request-target line of `Canonize` (everything before the first
newline): lowercased method (defaulting to GET), space, escaped path, and
the sorted raw query behind a `?` when the raw query is non-empty. -/
def canonizeTarget (req : Request) : String :=
  let method := if req.method = "" then "GET" else req.method
  goToLower method ++ " " ++ req.url.escapedPath ++
    (if req.url.rawQuery.length > 0 then
      "?" ++ String.intercalate "&" (sortStrings (goSplit req.url.rawQuery '&'))
    else "")

/-- One header line of `Canonize`: values are looked up under the canonical
key, with the request's effective host substituted for the `Host` key;
each value is trimmed, multiple values joined by `", "`. -/
def headerLine (req : Request) (h : String) : String :=
  let ch := canonicalHeaderKey h
  let rhvs :=
    if ch = "Host" then [if req.host = "" then req.url.host else req.host]
    else headerLookup req.header ch
  goToLower h ++ ": " ++ String.intercalate ", " (rhvs.map trimSpace) ++ "\n"

/-- The ordered list of header names `Canonize` writes: the value of the
`x-signed-headers` header split on spaces, then `"x-signed-headers"`. -/
def signedHeaderNames (req : Request) : List String :=
  goSplit (headerGet req.header "x-signed-headers") ' ' ++ ["x-signed-headers"]

/-- Go `Canonize(req, body)`: request-target line, header lines, body bytes.
The body is supplied as pure bytes, so the reader-error return of the Go
function cannot fire. -/
def Canonize (req : Request) (body : String) : String :=
  canonizeTarget req ++ "\n" ++
    String.join ((signedHeaderNames req).map (headerLine req)) ++ body

/-! ## Spec-side renderings of the canonicalization claims

These definitions follow the specification's words (claims C3 and C4), to
be compared with the embedded `Canonize`. -/

/-- A header key as `http.Header` stores it: a token in canonical case
form.  This is the invariant `net/http` maintains for request headers. -/
def isCanonKey (k : String) : Prop :=
  k.data.all validHeaderFieldChar = true ∧ canonCaseMap true k.data = k.data

instance (k : String) : Decidable (isCanonKey k) :=
  inferInstanceAs (Decidable (_ ∧ _))

/-- Spec words (C4): the value occurrences of a header found by
case-insensitive name match, with the effective host substituted when the
name is `host`, and no occurrences when the header is absent. -/
def specHeaderValues (req : Request) (name : String) : List String :=
  if goToLower name = "host" then
    [if req.host = "" then req.url.host else req.host]
  else
    match req.header.find? (fun kv => goToLower kv.1 == goToLower name) with
    | some kv => kv.2
    | none => []

/-- Spec words (C4): one header line — `lower(name)`, `": "`, the trimmed
occurrences joined by `", "`, then a newline. -/
def specHeaderLine (req : Request) (name : String) : String :=
  goToLower name ++ ": " ++
    String.intercalate ", " ((specHeaderValues req name).map trimSpace) ++ "\n"

/-- Spec words (C4): the names are the `X-Signed-Headers` value split on
spaces, with the literal `x-signed-headers` appended. -/
def specSignedNames (req : Request) : List String :=
  goSplit (headerGet req.header "X-Signed-Headers") ' ' ++ ["x-signed-headers"]

/-- Spec words (C4): the whole header section. -/
def specHeaderSection (req : Request) : String :=
  String.join ((specSignedNames req).map (specHeaderLine req))

/-! ## base64 (`encoding/base64` `RawURLEncoding`, non-strict) -/

/-- The URL-safe base64 alphabet (decode direction). -/
def b64Index (c : Char) : Option Nat :=
  let n := c.toNat
  if 65 ≤ n ∧ n ≤ 90 then some (n - 65)
  else if 97 ≤ n ∧ n ≤ 122 then some (n - 97 + 26)
  else if 48 ≤ n ∧ n ≤ 57 then some (n - 48 + 52)
  else if n = 45 then some 62
  else if n = 95 then some 63
  else none

/-- Decode base64 in 4-character quantums; a final quantum of 2 or 3
characters yields 1 or 2 bytes, a trailing single character is an error.
Unused trailing bits are ignored (Go's non-strict mode). -/
def b64DecodeChunks : List Char → Option (List Nat)
  | [] => some []
  | [_] => none
  | [a, b] => do
    let x ← b64Index a
    let y ← b64Index b
    pure [x * 4 + y / 16]
  | [a, b, c] => do
    let x ← b64Index a
    let y ← b64Index b
    let z ← b64Index c
    pure [x * 4 + y / 16, (y % 16) * 16 + z / 4]
  | a :: b :: c :: d :: rest => do
    let x ← b64Index a
    let y ← b64Index b
    let z ← b64Index c
    let w ← b64Index d
    let tail ← b64DecodeChunks rest
    pure ([x * 4 + y / 16, (y % 16) * 16 + z / 4, (z % 4) * 64 + w] ++ tail)

/-- Go `base64.RawURLEncoding.DecodeString`, also the body of the external
`go-base64` `NewFromString`: CR and LF are ignored anywhere in the input. -/
def b64DecodeRawURL (s : String) : Option (List Nat) :=
  b64DecodeChunks (s.data.filter fun c => ¬(c = '\r' ∨ c = '\n'))

/-- base64 alphabet (encode direction), standard or URL-safe. -/
def b64EncChar (urlSafe : Bool) (n : Nat) : Char :=
  if n < 26 then Char.ofNat (65 + n)
  else if n < 52 then Char.ofNat (97 + (n - 26))
  else if n < 62 then Char.ofNat (48 + (n - 52))
  else if n = 62 then (if urlSafe then '-' else '+')
  else (if urlSafe then '_' else '/')

/-- Encode bytes in 3-byte groups (without padding). -/
def b64EncChunks (u : Bool) : List Nat → List Char
  | [] => []
  | [b0] => [b64EncChar u (b0 / 4), b64EncChar u ((b0 % 4) * 16)]
  | [b0, b1] =>
    [b64EncChar u (b0 / 4), b64EncChar u ((b0 % 4) * 16 + b1 / 16),
     b64EncChar u ((b1 % 16) * 4)]
  | b0 :: b1 :: b2 :: rest =>
    b64EncChar u (b0 / 4) :: b64EncChar u ((b0 % 4) * 16 + b1 / 16) ::
    b64EncChar u ((b1 % 16) * 4 + b2 / 64) :: b64EncChar u (b2 % 64) ::
    b64EncChunks u rest

/-- The `=` padding appended by the padded base64 encodings. -/
def b64Pad (len : Nat) : List Char :=
  if len % 3 = 1 then ['=', '=']
  else if len % 3 = 2 then ['=']
  else []

/-- A base64 encoding of a byte list, in any of the four variants accepted
by `NewVerifier`: standard or URL-safe alphabet, padded or unpadded. -/
def base64Encode (urlSafe padded : Bool) (bs : List Nat) : String :=
  ⟨b64EncChunks urlSafe bs ++ (if padded then b64Pad bs.length else [])⟩

/-! ## Errors (`signature.Error`) -/

/-- Go `signature.Error`: an HTTP status code and a message. -/
structure Error where
  code : Nat
  message : String
deriving DecidableEq

/-! ## Ed25519 and the signature chain -/

/-- The abstract cryptographic core of Ed25519 verification:
key bytes, message bytes, signature bytes to verdict. -/
abbrev Ed25519Core := List Nat → List Nat → List Nat → Bool

/-- Go `golang.org/x/crypto/ed25519.Verify` at its documented interface:
panics (`none`) when the public key is not 32 bytes; returns `false` when
the signature is not 64 bytes or its last byte has a top bit set;
otherwise defers to the cryptographic check. -/
def ed25519Verify (core : Ed25519Core) (publicKey message sig : List Nat) :
    Option Bool :=
  if publicKey.length ≠ 32 then none
  else if sig.length ≠ 64 ∨ (sig.getD 63 0) &&& 224 ≠ 0 then some false
  else some (core publicKey message sig)

/-- Go `signature.Signature`: the three decoded parts of the `X-Signature`
header — payload signature (`Value`), ephemeral public key, endorsement. -/
structure Signature where
  value : List Nat
  publicKey : List Nat
  endorsement : List Nat
deriving DecidableEq

/-- Go `Signature.Validate(masterPubKey, b)`: the two-hop chain check.
`none` is a panic escaping from `ed25519.Verify`; `some none` is success;
`some (some e)` is the returned error. -/
def Signature.Validate (core : Ed25519Core) (s : Signature)
    (masterPubKey : List Nat) (b : List Nat) : Option (Option Error) :=
  match ed25519Verify core masterPubKey s.publicKey s.endorsement with
  | none => none
  | some false =>
    some (some ⟨401, "Request Public Key was not endorsed by Manifold"⟩)
  | some true =>
    match ed25519Verify core s.publicKey b s.value with
    | none => none
    | some false =>
      some (some ⟨401, "Request was not signed by included Public Key"⟩)
    | some true => some none

/-- The two kinds of error `ParseSignature` can return: its own structured
`&Error\x7bCode: 400, Message: "Could not parse Signature chain"\x7d`, or a raw
decode error propagated from the base64 library. -/
inductive SigParseErr where
  | chainErr
  | base64Err
deriving DecidableEq

/-- Go `signature.ParseSignature`: split on single spaces, require exactly 3
parts, decode each as unpadded URL-safe base64. -/
def ParseSignature (value : String) : Except SigParseErr Signature :=
  match goSplit value ' ' with
  | [p0, p1, p2] =>
    match b64DecodeRawURL p0 with
    | none => .error .base64Err
    | some v =>
      match b64DecodeRawURL p1 with
      | none => .error .base64Err
      | some k =>
        match b64DecodeRawURL p2 with
        | none => .error .base64Err
        | some e => .ok ⟨v, k, e⟩
  | _ => .error .chainErr

/-! ## Verifier -/

/-- UTF-8 bytes of an ASCII string (all canonical messages are ASCII). -/
def strBytes (s : String) : List Nat :=
  s.data.map Char.toNat

/-- Go `signature.Verifier`: holds the master public key. -/
structure Verifier where
  pk : List Nat
deriving DecidableEq

/-- Go `signature.PermittedTimeSkew`: `5 * time.Minute`, in nanoseconds. -/
def PermittedTimeSkew : Int := 300000000000

/-- Go `signature.NewVerifier`: remap `+` to `-` and `/` to `_`, strip
trailing `=`, decode as unpadded URL-safe base64, and require a 32-byte
key.  `none` is `ErrInvalidPublicKey`. -/
def NewVerifier (publicKey : String) : Option Verifier :=
  let spk := replaceChar '+' '-' publicKey
  let spk := replaceChar '/' '_' spk
  let spk := trimRightEq spk
  match b64DecodeRawURL spk with
  | some pkv => if pkv.length = 32 then some ⟨pkv.take 32⟩ else none
  | none => none

/-- Reduction of an unbounded integer to Go's int64 two's-complement
range, i.e. the value of an int64 computation modulo 2^64, represented in
[-2^63, 2^63). -/
def toInt64 (x : Int) : Int :=
  (x + 9223372036854775808) % 18446744073709551616 - 9223372036854775808

/-- Go `Verifier.Verify(req, body)`.  The function `parseRFC3339` embeds the external
`time.Parse(time.RFC3339, ·)` (instants as integer nanoseconds) and
`timeSince` the package's substitutable clock-difference function, whose
result is a `time.Duration`, an int64 — so it is reduced to int64 range,
and the negation `delta = -delta` is int64 negation, which wraps
`-MinInt64` back to `MinInt64`.  (`time.Since` reaches `MinInt64` on a
far-future date: `Time.Sub` is documented to saturate at the minimum
`Duration`.)  `none` is a panic escaping from chain validation; the body
is pure bytes, so the `Canonize` error branch cannot fire. -/
def Verifier.Verify (core : Ed25519Core) (parseRFC3339 : String → Option Int)
    (timeSince : Int → Int) (v : Verifier) (req : Request) (body : String) :
    Option (Option Error) :=
  let sigHeader := headerGet req.header "X-Signature"
  if sigHeader = "" then some (some ⟨400, "Missing X-Signature header"⟩)
  else
    match ParseSignature sigHeader with
    | .error _ => some (some ⟨400, "Could not parse X-Signature header"⟩)
    | .ok sig =>
      let headerList := headerGet req.header "X-Signed-Headers"
      if headerList = "" then
        some (some ⟨400, "Missing X-Signed-Headers header"⟩)
      else
        match parseRFC3339 (headerGet req.header "Date") with
        | none => some (some ⟨400, "Unable to read request date"⟩)
        | some rt =>
          let delta := toInt64 (timeSince rt)
          let delta := if delta < 0 then toInt64 (-delta) else delta
          if delta > PermittedTimeSkew then
            some (some ⟨400, "Request time skew is too great"⟩)
          else
            Signature.Validate core sig v.pk (strBytes (Canonize req body))

/-! ## JSON error responses and the middleware adapter -/

/-- Lowercase hexadecimal digit, as used by `encoding/json` escapes. -/
def hexDigit (n : Nat) : Char :=
  if n < 10 then Char.ofNat (48 + n) else Char.ofNat (87 + n)

/-- Go `encoding/json` string escaping (with the default HTML escaping):
quote, backslash, newline, carriage return, tab, the HTML-sensitive
`< > &`, other control characters, and U+2028/U+2029. -/
def jsonEscapeChar (c : Char) : String :=
  if c = '"' then "\\\""
  else if c = '\\' then "\\\\"
  else if c = '\n' then "\\n"
  else if c = '\r' then "\\r"
  else if c = '\t' then "\\t"
  else if c = '<' ∨ c = '>' ∨ c = '&' ∨ c.toNat < 32 then
    "\\u00" ++ ⟨[hexDigit (c.toNat / 16), hexDigit (c.toNat % 16)]⟩
  else if c.toNat = 8232 then "\\u2028"
  else if c.toNat = 8233 then "\\u2029"
  else ⟨[c]⟩

/-- A JSON string literal. -/
def jsonString (s : String) : String :=
  "\"" ++ String.join (s.data.map jsonEscapeChar) ++ "\""

/-- Go `json.Marshal` of a `signature.Error`: `Code` is tagged `json:"-"`, so
the body is exactly the one-field object with the message. -/
def errorJSON (e : Error) : String :=
  "\x7b\"message\":" ++ jsonString e.message ++ "\x7d"

/-- The single HTTP response written through the `ResponseWriter`. -/
structure Response where
  contentType : Option String
  contentLength : Option Nat
  status : Option Nat
  body : String
deriving DecidableEq

/-- Go `Error.Respond(rw)`: marshal the error (which cannot fail for this
two-field shape, so the panic branch is dead), set `Content-Type` and
`Content-Length`, write the status code and the JSON body. -/
def Error.Respond (e : Error) : Response :=
  let b := strBytes (errorJSON e)
  { contentType := some "application/json",
    contentLength := some b.length,
    status := some e.code,
    body := errorJSON e }

/-- A Go `error` value as seen by the middleware: either a structured
`*signature.Error` or any other error. -/
inductive GoError where
  | structured (e : Error)
  | plain (msg : String)
deriving DecidableEq

/-- What the middleware did with a request: wrote an error response itself,
or invoked the inner handler with the request and its buffered body. -/
inductive MWOutcome where
  | responded (resp : Response)
  | passed (req : Request) (body : String)
deriving DecidableEq

/-- The error dispatch at the end of `Verifier.Negroni`: a structured error
responds with itself; any other non-nil error responds 401 with a generic
message; no error passes the request through with the buffered body. -/
def negroniDispatch (req : Request) (body : String) :
    Option GoError → MWOutcome
  | some (.structured e) => .responded e.Respond
  | some (.plain _) =>
    .responded (Error.Respond
      ⟨401, "Could not validate authenticity of the request"⟩)
  | none => .passed req body

/-- Go `Verifier.Negroni`: buffer the body (pure bytes here, so the body-read
error branch cannot fire), put a readable copy back on the request, verify,
and dispatch.  `none` is a panic escaping from verification.  The model
`Verify` only ever returns a structured `*Error`, matching the Go code, so
the `plain` branch of the dispatch is dead there. -/
def Verifier.Negroni (core : Ed25519Core) (parseRFC3339 : String → Option Int)
    (timeSince : Int → Int) (v : Verifier) (req : Request) (body : String) :
    Option MWOutcome :=
  match Verifier.Verify core parseRFC3339 timeSince v req body with
  | none => none
  | some r => some (negroniDispatch req body (r.map GoError.structured))

end GoSignature

namespace GoSignature

/-! ## Claim theorems -/

/-- Claim C2: for the request with method PUT, path `/v1/resources`, raw
query `foo=bar`, `X-Signed-Headers: date`, `Date: 2017-03-05T23:53:08Z`
and body `Test body data`, `Canonize` returns exactly the canonical bytes
of the package's documented example, with real newlines and no trailing
newline after the body. -/
theorem canonize_example_put :
    Canonize
      { method := "PUT",
        url := { escapedPath := "/v1/resources", rawQuery := "foo=bar", host := "" },
        host := "",
        header := [("X-Signed-Headers", ["date"]), ("Date", ["2017-03-05T23:53:08Z"])] }
      "Test body data" =
    "put /v1/resources?foo=bar\ndate: 2017-03-05T23:53:08Z\nx-signed-headers: date\nTest body data" := by
  decide

/-- Claim C1: `Signature.Validate` runs the two-hop check in order with
short-circuit semantics: an endorsement that the master key rejects yields
the 401 endorsement error whatever the canonical bytes are (the payload
check is never consulted); with the endorsement accepted, a rejected
payload signature yields the 401 payload error; and the call succeeds if
and only if both Ed25519 checks pass. -/
theorem validate_two_hop_short_circuit (core : Ed25519Core) (mk : List Nat)
    (s : Signature) (b : List Nat) :
    (ed25519Verify core mk s.publicKey s.endorsement = some false →
      ∀ b2 : List Nat, Signature.Validate core s mk b2 =
        some (some ⟨401, "Request Public Key was not endorsed by Manifold"⟩)) ∧
    (ed25519Verify core mk s.publicKey s.endorsement = some true →
      ed25519Verify core s.publicKey b s.value = some false →
      Signature.Validate core s mk b =
        some (some ⟨401, "Request was not signed by included Public Key"⟩)) ∧
    (Signature.Validate core s mk b = some none ↔
      ed25519Verify core mk s.publicKey s.endorsement = some true ∧
      ed25519Verify core s.publicKey b s.value = some true) := by
  refine ⟨?_, ?_, ?_⟩
  · intro h b2
    simp [Signature.Validate, h]
  · intro h1 h2
    simp [Signature.Validate, h1, h2]
  · constructor
    · intro h
      unfold Signature.Validate at h
      rcases he : ed25519Verify core mk s.publicKey s.endorsement with _ | eb <;>
        rw [he] at h
      · exact absurd h (by simp)
      · cases eb
        · exact absurd h (by simp)
        · rcases hp : ed25519Verify core s.publicKey b s.value with _ | pb <;>
            rw [hp] at h
          · exact absurd h (by simp)
          · cases pb
            · exact absurd h (by simp)
            · exact ⟨rfl, rfl⟩
    · rintro ⟨h1, h2⟩
      simp [Signature.Validate, h1, h2]

/-- Witness for C1: a rejecting core yields the endorsement error; an
accepting core with a malformed (hence rejected) payload signature yields
the payload error. -/
theorem validate_two_hop_short_circuit_witness :
    Signature.Validate (fun _ _ _ => false)
      ⟨List.replicate 64 0, List.replicate 32 1, List.replicate 64 0⟩
      (List.replicate 32 0) [] =
      some (some ⟨401, "Request Public Key was not endorsed by Manifold"⟩) ∧
    Signature.Validate (fun _ _ _ => true)
      ⟨[], List.replicate 32 1, List.replicate 64 0⟩
      (List.replicate 32 0) [] =
      some (some ⟨401, "Request was not signed by included Public Key"⟩) :=
  ⟨(validate_two_hop_short_circuit (fun _ _ _ => false) (List.replicate 32 0)
      ⟨List.replicate 64 0, List.replicate 32 1, List.replicate 64 0⟩ []).1
      (by decide) [],
   (validate_two_hop_short_circuit (fun _ _ _ => true) (List.replicate 32 0)
      ⟨[], List.replicate 32 1, List.replicate 64 0⟩ []).2.1
      (by decide) (by decide)⟩

/-- Claim C8 (code bug): a 31-byte `EphemeralPubKey` whose endorsement the
master key accepts does not fail with a 401 — the second `ed25519.Verify`
call panics on the wrong-length key (modelled as `none`), crashing the
host process instead of failing deterministically. -/
theorem validate_wrong_length_key_panics :
    (List.replicate 31 0).length ≠ 32 ∧
    Signature.Validate (fun _ _ _ => true)
      ⟨List.replicate 64 0, List.replicate 31 0, List.replicate 64 0⟩
      (List.replicate 32 0) [] = none := by
  decide

/-- Claim C10: on a structured verification error the middleware writes
exactly one response carrying that error's status code, the one-field JSON
body, `Content-Type: application/json` and the matching `Content-Length`,
without invoking the inner handler; on success it invokes the inner
handler with the buffered body copy and writes nothing itself; an
unclassified failure would be answered with the generic 401. -/
theorem negroni_error_response_or_passthrough (core : Ed25519Core)
    (pd : String → Option Int) (ts : Int → Int) (v : Verifier)
    (req : Request) (body : String) :
    (∀ e : Error, Verifier.Verify core pd ts v req body = some (some e) →
      Verifier.Negroni core pd ts v req body = some (.responded
        { contentType := some "application/json",
          contentLength := some (strBytes (errorJSON e)).length,
          status := some e.code,
          body := errorJSON e })) ∧
    (Verifier.Verify core pd ts v req body = some none →
      Verifier.Negroni core pd ts v req body = some (.passed req body)) ∧
    (∀ m, negroniDispatch req body (some (.plain m)) =
      .responded (Error.Respond
        ⟨401, "Could not validate authenticity of the request"⟩)) := by
  refine ⟨?_, ?_, fun m => rfl⟩
  · intro e h
    simp [Verifier.Negroni, h, negroniDispatch, Error.Respond]
  · intro h
    simp [Verifier.Negroni, h, negroniDispatch]

/-- Witness for C10: a request with no `X-Signature` header is rejected
with the 400 JSON response and never reaches the inner handler. -/
theorem negroni_error_response_or_passthrough_witness :
    Verifier.Negroni (fun _ _ _ => true) (fun _ => none) (fun _ => 0)
      ⟨List.replicate 32 0⟩
      { method := "GET", url := { escapedPath := "/", rawQuery := "", host := "" },
        host := "", header := [] } "" =
      some (.responded
        { contentType := some "application/json",
          contentLength := some
            (strBytes (errorJSON ⟨400, "Missing X-Signature header"⟩)).length,
          status := some 400,
          body := errorJSON ⟨400, "Missing X-Signature header"⟩ }) :=
  (negroni_error_response_or_passthrough (fun _ _ _ => true) (fun _ => none)
      (fun _ => 0) ⟨List.replicate 32 0⟩
      { method := "GET", url := { escapedPath := "/", rawQuery := "", host := "" },
        host := "", header := [] } "").1
    ⟨400, "Missing X-Signature header"⟩ (by decide)

/-- Claim C5: `Verifier.Verify` checks its preconditions fail-fast in a
fixed order — missing `X-Signature`, unparsable `X-Signature`, missing or
empty `X-Signed-Headers`, unparsable `Date` — each returning its 400 error,
and only after all four pass does it evaluate the skew check, the
canonicalization and the chain validation. -/
theorem verify_fail_fast_order (core : Ed25519Core)
    (pd : String → Option Int) (ts : Int → Int) (v : Verifier)
    (req : Request) (body : String) :
    (headerGet req.header "X-Signature" = "" →
      Verifier.Verify core pd ts v req body =
        some (some ⟨400, "Missing X-Signature header"⟩)) ∧
    (∀ err, headerGet req.header "X-Signature" ≠ "" →
      ParseSignature (headerGet req.header "X-Signature") = .error err →
      Verifier.Verify core pd ts v req body =
        some (some ⟨400, "Could not parse X-Signature header"⟩)) ∧
    (∀ sig, headerGet req.header "X-Signature" ≠ "" →
      ParseSignature (headerGet req.header "X-Signature") = .ok sig →
      headerGet req.header "X-Signed-Headers" = "" →
      Verifier.Verify core pd ts v req body =
        some (some ⟨400, "Missing X-Signed-Headers header"⟩)) ∧
    (∀ sig, headerGet req.header "X-Signature" ≠ "" →
      ParseSignature (headerGet req.header "X-Signature") = .ok sig →
      headerGet req.header "X-Signed-Headers" ≠ "" →
      pd (headerGet req.header "Date") = none →
      Verifier.Verify core pd ts v req body =
        some (some ⟨400, "Unable to read request date"⟩)) ∧
    (∀ sig rt, headerGet req.header "X-Signature" ≠ "" →
      ParseSignature (headerGet req.header "X-Signature") = .ok sig →
      headerGet req.header "X-Signed-Headers" ≠ "" →
      pd (headerGet req.header "Date") = some rt →
      Verifier.Verify core pd ts v req body =
        (if (if toInt64 (ts rt) < 0 then toInt64 (-toInt64 (ts rt))
            else toInt64 (ts rt)) > PermittedTimeSkew then
          some (some ⟨400, "Request time skew is too great"⟩)
        else Signature.Validate core sig v.pk (strBytes (Canonize req body)))) := by
  refine ⟨?_, ?_, ?_, ?_, ?_⟩
  · intro h
    simp [Verifier.Verify, h]
  · intro err h1 h2
    simp [Verifier.Verify, h1, h2]
  · intro sig h1 h2 h3
    simp [Verifier.Verify, h1, h2, h3]
  · intro sig h1 h2 h3 h4
    simp [Verifier.Verify, h1, h2, h3, h4]
  · intro sig rt h1 h2 h3 h4
    simp [Verifier.Verify, h1, h2, h3, h4]

/-- Witness for C5: five concrete requests take the five branches. -/
theorem verify_fail_fast_order_witness :
    (Verifier.Verify (fun _ _ _ => false) (fun _ => none) (fun _ => 0)
        ⟨List.replicate 32 0⟩
        { method := "GET", url := ⟨"/", "", ""⟩, host := "", header := [] } "" =
      some (some ⟨400, "Missing X-Signature header"⟩)) ∧
    (Verifier.Verify (fun _ _ _ => false) (fun _ => none) (fun _ => 0)
        ⟨List.replicate 32 0⟩
        { method := "GET", url := ⟨"/", "", ""⟩, host := "",
          header := [("X-Signature", ["!"])] } "" =
      some (some ⟨400, "Could not parse X-Signature header"⟩)) ∧
    (Verifier.Verify (fun _ _ _ => false) (fun _ => none) (fun _ => 0)
        ⟨List.replicate 32 0⟩
        { method := "GET", url := ⟨"/", "", ""⟩, host := "",
          header := [("X-Signature", ["QQ QQ QQ"])] } "" =
      some (some ⟨400, "Missing X-Signed-Headers header"⟩)) ∧
    (Verifier.Verify (fun _ _ _ => false) (fun _ => none) (fun _ => 0)
        ⟨List.replicate 32 0⟩
        { method := "GET", url := ⟨"/", "", ""⟩, host := "",
          header := [("X-Signature", ["QQ QQ QQ"]),
                     ("X-Signed-Headers", ["date"])] } "" =
      some (some ⟨400, "Unable to read request date"⟩)) ∧
    (Verifier.Verify (fun _ _ _ => false) (fun _ => some 7) (fun _ => 0)
        ⟨List.replicate 32 0⟩
        { method := "GET", url := ⟨"/", "", ""⟩, host := "",
          header := [("X-Signature", ["QQ QQ QQ"]),
                     ("X-Signed-Headers", ["date"]),
                     ("Date", ["2017-03-05T23:53:08Z"])] } "" =
      (if (if toInt64 0 < 0 then toInt64 (-toInt64 0)
          else toInt64 0) > PermittedTimeSkew then
        some (some ⟨400, "Request time skew is too great"⟩)
      else Signature.Validate (fun _ _ _ => false) ⟨[65], [65], [65]⟩
        (List.replicate 32 0)
        (strBytes (Canonize
          { method := "GET", url := ⟨"/", "", ""⟩, host := "",
            header := [("X-Signature", ["QQ QQ QQ"]),
                       ("X-Signed-Headers", ["date"]),
                       ("Date", ["2017-03-05T23:53:08Z"])] } "")))) :=
  ⟨(verify_fail_fast_order _ _ _ _ _ _).1 (by decide),
   (verify_fail_fast_order _ _ _ _ _ _).2.1 .chainErr (by decide) rfl,
   (verify_fail_fast_order _ _ _ _ _ _).2.2.1 ⟨[65], [65], [65]⟩
     (by decide) rfl (by decide),
   (verify_fail_fast_order _ _ _ _ _ _).2.2.2.1 ⟨[65], [65], [65]⟩
     (by decide) rfl (by decide) rfl,
   (verify_fail_fast_order _ _ _ _ _ _).2.2.2.2 ⟨[65], [65], [65]⟩ 7
     (by decide) rfl (by decide) rfl⟩

/-- Claim C6 (code bug): the skew check does not evaluate the absolute
value of the clock difference on all reachable inputs.  `time.Since` is an
int64 `Duration` and saturates at `MinInt64` for a far-future `Date`
(e.g. `9999-01-01T00:00:00Z`, valid RFC3339); the code's `delta = -delta`
is int64 negation, which wraps `-MinInt64` back to `MinInt64`, a negative
value, so the threshold comparison passes and `Verifier.Verify` proceeds
to chain validation instead of returning the 400 time-skew error the
claim requires for every over-threshold skew.  An in-range skew one
nanosecond over the threshold is rejected as claimed, isolating the
failure to the wrap. -/
theorem verify_time_skew_wrap_bug :
    ((9223372036854775808 : Int) > PermittedTimeSkew) ∧
    (Verifier.Verify (fun _ _ _ => false) (fun _ => some 7)
        (fun _ => -9223372036854775808) ⟨List.replicate 32 0⟩
        { method := "GET", url := ⟨"/", "", ""⟩, host := "",
          header := [("X-Signature", ["QQ QQ QQ"]),
                     ("X-Signed-Headers", ["date"]),
                     ("Date", ["9999-01-01T00:00:00Z"])] } "" =
      some (some ⟨401, "Request Public Key was not endorsed by Manifold"⟩)) ∧
    (Verifier.Verify (fun _ _ _ => false) (fun _ => some 7)
        (fun _ => 300000000001) ⟨List.replicate 32 0⟩
        { method := "GET", url := ⟨"/", "", ""⟩, host := "",
          header := [("X-Signature", ["QQ QQ QQ"]),
                     ("X-Signed-Headers", ["date"]),
                     ("Date", ["9999-01-01T00:00:00Z"])] } "" =
      some (some ⟨400, "Request time skew is too great"⟩)) := by
  decide

/-- Counterexample to claim C7: `ParseSignature` does not require the three
space-delimited tokens to be non-empty — on `"QQ QQ "` the third token is
empty, decodes to the empty byte string, and parsing succeeds. -/
theorem parseSignature_accepts_empty_token :
    ParseSignature "QQ QQ " = .ok ⟨[65], [65], []⟩ ∧
    "" ∈ goSplit "QQ QQ " ' ' := by
  exact ⟨rfl, by decide⟩

/-- Claim C7 as amended: `ParseSignature` succeeds exactly when splitting
on single spaces yields exactly 3 tokens (empty tokens allowed) each of
which decodes as an unpadded URL-safe base64 byte string; a wrong token
count fails with the structured 400 chain error, while a token that fails
to decode fails with the base64 library's decode error. -/
theorem parseSignature_success_characterization (s : String) :
    ((∃ sig, ParseSignature s = .ok sig) ↔
      (goSplit s ' ').length = 3 ∧
        ∀ p ∈ goSplit s ' ', (b64DecodeRawURL p).isSome) ∧
    ((goSplit s ' ').length ≠ 3 → ParseSignature s = .error .chainErr) ∧
    ((goSplit s ' ').length = 3 →
      (∃ p ∈ goSplit s ' ', b64DecodeRawURL p = none) →
      ParseSignature s = .error .base64Err) := by
  unfold ParseSignature
  rcases hxs : goSplit s ' ' with _ | ⟨p0, _ | ⟨p1, _ | ⟨p2, _ | ⟨p3, rest⟩⟩⟩⟩
  · exact ⟨⟨fun ⟨sig, h⟩ => absurd h (by simp),
      fun ⟨h3, _⟩ => absurd h3 (by simp)⟩, fun _ => rfl,
      fun h => absurd h (by simp)⟩
  · exact ⟨⟨fun ⟨sig, h⟩ => absurd h (by simp),
      fun ⟨h3, _⟩ => absurd h3 (by simp)⟩, fun _ => rfl,
      fun h => absurd h (by simp)⟩
  · exact ⟨⟨fun ⟨sig, h⟩ => absurd h (by simp),
      fun ⟨h3, _⟩ => absurd h3 (by simp)⟩, fun _ => rfl,
      fun h => absurd h (by simp)⟩
  · refine ⟨⟨?_, ?_⟩, fun h => (h (by simp)).elim, fun _ hex => ?_⟩
    · rintro ⟨sig, h⟩
      simp only [] at h
      refine ⟨rfl, ?_⟩
      rcases d0 : b64DecodeRawURL p0 with _ | v0 <;> simp [d0] at h
      rcases d1 : b64DecodeRawURL p1 with _ | v1 <;> simp [d1] at h
      rcases d2 : b64DecodeRawURL p2 with _ | v2 <;> simp [d2] at h
      intro p hp
      simp only [List.mem_cons, List.not_mem_nil, or_false] at hp
      rcases hp with rfl | rfl | rfl
      · rw [d0]; rfl
      · rw [d1]; rfl
      · rw [d2]; rfl
    · rintro ⟨-, hall⟩
      have h0 := hall p0 (by simp)
      have h1 := hall p1 (by simp)
      have h2 := hall p2 (by simp)
      rcases Option.isSome_iff_exists.mp h0 with ⟨v0, d0⟩
      rcases Option.isSome_iff_exists.mp h1 with ⟨v1, d1⟩
      rcases Option.isSome_iff_exists.mp h2 with ⟨v2, d2⟩
      exact ⟨⟨v0, v1, v2⟩, by simp [d0, d1, d2]⟩
    · rcases hex with ⟨p, hp, hnone⟩
      simp only [List.mem_cons, List.not_mem_nil, or_false] at hp
      rcases hp with rfl | rfl | rfl
      · simp [hnone]
      · rcases d0 : b64DecodeRawURL p0 with _ | v0
        · simp [d0]
        · simp [d0, hnone]
      · rcases d0 : b64DecodeRawURL p0 with _ | v0
        · simp [d0]
        · rcases d1 : b64DecodeRawURL p1 with _ | v1
          · simp [d0, d1]
          · simp [d0, d1, hnone]
  · exact ⟨⟨fun ⟨sig, h⟩ => absurd h (by simp),
      fun ⟨h3, _⟩ => absurd h3 (by simp)⟩, fun _ => rfl,
      fun h => absurd h (by simp)⟩

/-- Witness for the amended C7: a 1-token value fails with the structured
chain error; a 3-token value whose first token is not base64 fails with
the decode error; a well-formed 3-token value parses. -/
theorem parseSignature_success_characterization_witness :
    ParseSignature "QQ" = .error .chainErr ∧
    ParseSignature "!! QQ QQ" = .error .base64Err ∧
    (∃ sig, ParseSignature "QQ QQ QQ" = .ok sig) :=
  ⟨(parseSignature_success_characterization "QQ").2.1 (by decide),
   (parseSignature_success_characterization "!! QQ QQ").2.2 (by decide)
     ⟨"!!", by decide, by decide⟩,
   (parseSignature_success_characterization "QQ QQ QQ").1.mpr
     ⟨by decide, by decide⟩⟩

/-! ## Supporting lemmas: the byte order on strings -/

theorem lexLe_total (as bs : List Char) :
    lexLe as bs = true ∨ lexLe bs as = true := by
  induction as generalizing bs with
  | nil => exact .inl rfl
  | cons a as ih =>
    cases bs with
    | nil => exact .inr rfl
    | cons b bs =>
      by_cases h1 : a.toNat < b.toNat
      · exact .inl (by simp [lexLe, h1])
      · by_cases h2 : b.toNat < a.toNat
        · exact .inr (by simp [lexLe, h2])
        · rcases ih bs with h | h
          · exact .inl (by simp [lexLe, h1, h2, h])
          · exact .inr (by simp [lexLe, h1, h2, h])

theorem lexLe_trans (as bs cs : List Char) (hab : lexLe as bs = true)
    (hbc : lexLe bs cs = true) : lexLe as cs = true := by
  induction as generalizing bs cs with
  | nil => rfl
  | cons a as ih =>
    cases bs with
    | nil => simp [lexLe] at hab
    | cons b bs =>
      cases cs with
      | nil => simp [lexLe] at hbc
      | cons c cs =>
        simp only [lexLe] at hab hbc ⊢
        split_ifs at hab hbc ⊢ <;>
          first
            | rfl
            | omega
            | exact ih bs cs hab hbc

instance : IsTotal String strLe :=
  ⟨fun a b => lexLe_total a.data b.data⟩

instance : IsTrans String strLe :=
  ⟨fun a b c => lexLe_trans a.data b.data c.data⟩

theorem string_eq_empty_iff (s : String) : s = "" ↔ s.data = [] := by
  cases s with
  | mk data =>
    constructor
    · intro h
      exact congrArg String.data h
    · intro h
      simp only at h
      rw [h]

theorem string_length_pos (s : String) (h : s ≠ "") : s.length > 0 := by
  have : s.data ≠ [] := fun hnil => h ((string_eq_empty_iff s).mpr hnil)
  exact List.length_pos.mpr this

/-- Claim C3: the first line of the canonical form is the lowercased
method (GET substituted when empty), a space, the escaped path, and — only
when the raw query is non-empty — a `?` followed by the raw query split on
`&`, the whole segments sorted lexicographically as opaque raw strings and
rejoined with `&`; with an empty raw query the `?` and everything after it
are omitted. -/
theorem canonize_first_line (req : Request) (body : String) :
    (req.url.rawQuery = "" →
      Canonize req body =
        goToLower (if req.method = "" then "GET" else req.method) ++ " " ++
          req.url.escapedPath ++ "\n" ++
          String.join ((signedHeaderNames req).map (headerLine req)) ++ body) ∧
    (req.url.rawQuery ≠ "" →
      ∃ segs : List String,
        segs.Perm (goSplit req.url.rawQuery '&') ∧
        List.Sorted strLe segs ∧
        Canonize req body =
          goToLower (if req.method = "" then "GET" else req.method) ++ " " ++
            req.url.escapedPath ++ "?" ++ String.intercalate "&" segs ++ "\n" ++
            String.join ((signedHeaderNames req).map (headerLine req)) ++ body) := by
  constructor
  · intro h
    unfold Canonize canonizeTarget
    rw [h]
    simp [String.append_assoc]
  · intro h
    refine ⟨sortStrings (goSplit req.url.rawQuery '&'),
      List.perm_insertionSort strLe _, List.sorted_insertionSort strLe _, ?_⟩
    unfold Canonize canonizeTarget
    rw [if_pos (string_length_pos _ h)]
    simp [String.append_assoc, sortStrings]

/-- Witness for C3: both branches at concrete requests — the empty query
omits the `?`, and the query `foo=bar&a=1` is emitted sorted. -/
theorem canonize_first_line_witness :
    (Canonize
      { method := "PUT", url := { escapedPath := "/p", rawQuery := "", host := "" },
        host := "", header := [] } "B" =
      goToLower (if ("PUT" : String) = "" then "GET" else "PUT") ++ " " ++ "/p" ++ "\n" ++
        String.join ((signedHeaderNames
          { method := "PUT", url := { escapedPath := "/p", rawQuery := "", host := "" },
            host := "", header := [] }).map (headerLine
          { method := "PUT", url := { escapedPath := "/p", rawQuery := "", host := "" },
            host := "", header := [] })) ++ "B") ∧
    (∃ segs : List String,
      segs.Perm (goSplit "foo=bar&a=1" '&') ∧
      List.Sorted strLe segs ∧
      Canonize
        { method := "PUT", url := { escapedPath := "/p", rawQuery := "foo=bar&a=1", host := "" },
          host := "", header := [] } "B" =
        goToLower (if ("PUT" : String) = "" then "GET" else "PUT") ++ " " ++ "/p" ++ "?" ++
          String.intercalate "&" segs ++ "\n" ++
          String.join ((signedHeaderNames
            { method := "PUT", url := { escapedPath := "/p", rawQuery := "foo=bar&a=1", host := "" },
              host := "", header := [] }).map (headerLine
            { method := "PUT", url := { escapedPath := "/p", rawQuery := "foo=bar&a=1", host := "" },
              host := "", header := [] })) ++ "B") :=
  ⟨(canonize_first_line
      { method := "PUT", url := { escapedPath := "/p", rawQuery := "", host := "" },
        host := "", header := [] } "B").1 rfl,
   (canonize_first_line
      { method := "PUT", url := { escapedPath := "/p", rawQuery := "foo=bar&a=1", host := "" },
        host := "", header := [] } "B").2 (by decide)⟩

/-! ## Supporting lemmas: ASCII case mapping and canonical header keys -/

theorem char_toNat_ofNat (n : Nat) (h : n.isValidChar) :
    (Char.ofNat n).toNat = n := by
  simp only [Char.ofNat, h, dif_pos, Char.ofNatAux, Char.toNat]
  rfl

theorem char_eq_of_toNat {a b : Char} (h : a.toNat = b.toNat) : a = b := by
  rw [← Char.ofNat_toNat a, ← Char.ofNat_toNat b, h]

theorem toNat_toLower (c : Char) :
    (Char.toLower c).toNat =
      if c.toNat ≥ 65 ∧ c.toNat ≤ 90 then c.toNat + 32 else c.toNat := by
  by_cases h : c.toNat ≥ 65 ∧ c.toNat ≤ 90
  · simp only [Char.toLower, if_pos h]
    exact char_toNat_ofNat _ (Or.inl (by omega))
  · simp only [Char.toLower, if_neg h]

theorem toNat_toUpper (c : Char) :
    (Char.toUpper c).toNat =
      if c.toNat ≥ 97 ∧ c.toNat ≤ 122 then c.toNat - 32 else c.toNat := by
  by_cases h : c.toNat ≥ 97 ∧ c.toNat ≤ 122
  · simp only [Char.toUpper, if_pos h]
    exact char_toNat_ofNat _ (Or.inl (by omega))
  · simp only [Char.toUpper, if_neg h]

theorem toLower_toLower (c : Char) :
    (Char.toLower c).toLower = c.toLower := by
  apply char_eq_of_toNat
  simp only [toNat_toLower]
  split_ifs <;> omega

theorem toLower_toUpper (c : Char) :
    (Char.toUpper c).toLower = c.toLower := by
  apply char_eq_of_toNat
  simp only [toNat_toLower, toNat_toUpper]
  split_ifs <;> omega

theorem toUpper_toLower (c : Char) :
    (Char.toLower c).toUpper = c.toUpper := by
  apply char_eq_of_toNat
  simp only [toNat_toUpper, toNat_toLower]
  split_ifs <;> omega

theorem valid_toLower (c : Char) :
    validHeaderFieldChar c.toLower = validHeaderFieldChar c := by
  unfold validHeaderFieldChar
  rw [toNat_toLower]
  by_cases h : c.toNat ≥ 65 ∧ c.toNat ≤ 90
  · rw [if_pos h]
    have h1 : validN (c.toNat + 32) = true := by
      simp only [validN, Bool.or_eq_true, Bool.and_eq_true, decide_eq_true_eq]
      omega
    have h2 : validN c.toNat = true := by
      simp only [validN, Bool.or_eq_true, Bool.and_eq_true, decide_eq_true_eq]
      omega
    rw [h1, h2]
  · rw [if_neg h]

theorem canonCaseMap_map_toLower (cs : List Char) : ∀ u : Bool,
    (canonCaseMap u cs).map Char.toLower = cs.map Char.toLower := by
  induction cs with
  | nil => intro u; rfl
  | cons c cs ih =>
    intro u
    simp only [canonCaseMap, List.map_cons]
    cases u <;> simp [toLower_toUpper, toLower_toLower, ih]

theorem canonCaseMap_of_map_toLower (cs : List Char) : ∀ u : Bool,
    canonCaseMap u (cs.map Char.toLower) = canonCaseMap u cs := by
  induction cs with
  | nil => intro u; rfl
  | cons c cs ih =>
    intro u
    simp only [List.map_cons, canonCaseMap, toUpper_toLower, toLower_toLower, ih]

theorem all_valid_map_toLower (cs : List Char) :
    (cs.map Char.toLower).all validHeaderFieldChar =
      cs.all validHeaderFieldChar := by
  induction cs with
  | nil => rfl
  | cons c cs ih => simp [valid_toLower, ih]

/-- The central canonical-key property: a stored canonical-form token key
`k` equals `canonicalHeaderKey n` exactly when `k` and `n` agree
case-insensitively. -/
theorem canonicalHeaderKey_eq_canon (k n : String) (hk : isCanonKey k) :
    canonicalHeaderKey n = k ↔ goToLower n = goToLower k := by
  obtain ⟨hkv, hkc⟩ := hk
  by_cases hv : n.data.all validHeaderFieldChar
  · rw [canonicalHeaderKey, if_pos hv]
    constructor
    · intro h
      have hdata : canonCaseMap true n.data = k.data := congrArg String.data h
      unfold goToLower
      exact congrArg String.mk (by rw [← hdata, canonCaseMap_map_toLower])
    · intro h
      have hdata : n.data.map Char.toLower = k.data.map Char.toLower := by
        have := congrArg String.data h
        simpa [goToLower] using this
      apply String.ext
      show canonCaseMap true n.data = k.data
      calc canonCaseMap true n.data
          = canonCaseMap true (n.data.map Char.toLower) :=
            (canonCaseMap_of_map_toLower n.data true).symm
        _ = canonCaseMap true (k.data.map Char.toLower) := by rw [hdata]
        _ = canonCaseMap true k.data := canonCaseMap_of_map_toLower k.data true
        _ = k.data := hkc
  · rw [canonicalHeaderKey, if_neg hv]
    constructor
    · intro h
      subst h
      exact absurd hkv hv
    · intro h
      exfalso
      apply hv
      have hdata : n.data.map Char.toLower = k.data.map Char.toLower := by
        have := congrArg String.data h
        simpa [goToLower] using this
      calc n.data.all validHeaderFieldChar
          = (n.data.map Char.toLower).all validHeaderFieldChar :=
            (all_valid_map_toLower n.data).symm
        _ = (k.data.map Char.toLower).all validHeaderFieldChar := by rw [hdata]
        _ = k.data.all validHeaderFieldChar := all_valid_map_toLower k.data
        _ = true := hkv

/-- The `Host` special case: derived from the canonical-key property. -/
theorem canonicalHeaderKey_eq_host (n : String) :
    canonicalHeaderKey n = "Host" ↔ goToLower n = "host" := by
  have h := canonicalHeaderKey_eq_canon "Host" n (by decide)
  rw [h]
  constructor
  · intro h2
    rw [h2]
    decide
  · intro h2
    rw [h2]
    decide

/-- Looking a name up under its canonical key in a map of canonical-form
token keys is the case-insensitive lookup of the spec's words. -/
theorem headerLookup_canon (hdr : List (String × List String)) (n : String)
    (hh : ∀ kv ∈ hdr, isCanonKey kv.1) :
    headerLookup hdr (canonicalHeaderKey n) =
      (match hdr.find? (fun kv => goToLower kv.1 == goToLower n) with
       | some kv => kv.2
       | none => []) := by
  induction hdr with
  | nil => rfl
  | cons kv rest ih =>
    have hk : isCanonKey kv.1 := hh kv (by simp)
    have hr : ∀ kv2 ∈ rest, isCanonKey kv2.1 := fun kv2 h2 => hh kv2 (by simp [h2])
    by_cases heq : goToLower kv.1 = goToLower n
    · have hck : canonicalHeaderKey n = kv.1 :=
        (canonicalHeaderKey_eq_canon kv.1 n hk).mpr heq.symm
      have hb1 : (canonicalHeaderKey n == kv.1) = true := beq_iff_eq.mpr hck
      have hb2 : (goToLower kv.1 == goToLower n) = true := beq_iff_eq.mpr heq
      cases kv with
      | mk k vs =>
        simp only [headerLookup, List.lookup, List.find?_cons, hb1, hb2] at *
        rfl
    · have hck : canonicalHeaderKey n ≠ kv.1 := fun hc =>
        heq ((canonicalHeaderKey_eq_canon kv.1 n hk).mp hc).symm
      have hb1 : (canonicalHeaderKey n == kv.1) = false :=
        beq_eq_false_iff_ne.mpr hck
      have hb2 : (goToLower kv.1 == goToLower n) = false :=
        beq_eq_false_iff_ne.mpr heq
      cases kv with
      | mk k vs =>
        simp only [headerLookup, List.lookup, List.find?_cons, hb1, hb2] at *
        exact ih hr

/-- One written header line agrees with the spec's rendering of it. -/
theorem headerLine_eq_spec (req : Request)
    (hh : ∀ kv ∈ req.header, isCanonKey kv.1) (name : String) :
    headerLine req name = specHeaderLine req name := by
  by_cases hhost : goToLower name = "host"
  · have h1 : canonicalHeaderKey name = "Host" :=
      (canonicalHeaderKey_eq_host name).mpr hhost
    simp [headerLine, specHeaderLine, specHeaderValues, h1, hhost]
  · have h1 : canonicalHeaderKey name ≠ "Host" := fun hc =>
      hhost ((canonicalHeaderKey_eq_host name).mp hc)
    simp [headerLine, specHeaderLine, specHeaderValues, if_neg h1, if_neg hhost,
      headerLookup_canon req.header name hh]

theorem string_foldl_append : ∀ (l : List String) (init : String),
    l.foldl (· ++ ·) init = init ++ String.join l
  | [], init => by simp [String.join]
  | x :: xs, init => by
    show xs.foldl (· ++ ·) (init ++ x) = init ++ String.join (x :: xs)
    rw [string_foldl_append xs (init ++ x)]
    have hj : String.join (x :: xs) = x ++ String.join xs := by
      show xs.foldl (· ++ ·) ("" ++ x) = x ++ String.join xs
      rw [string_foldl_append xs ("" ++ x)]
      simp
    rw [hj, String.append_assoc]

theorem string_join_append (l1 l2 : List String) :
    String.join (l1 ++ l2) = String.join l1 ++ String.join l2 := by
  show (l1 ++ l2).foldl (· ++ ·) "" = _
  rw [List.foldl_append, string_foldl_append]
  rfl

/-- Claim C4: the header section of the canonical form walks the
`X-Signed-Headers` value split on spaces with `x-signed-headers` appended,
writing for each name the lowercased name, `": "`, the trimmed
case-insensitively matched value occurrences joined by `", "` (with the
effective host substituted for the name `host`, and the empty value for an
absent header), and a newline; the last header line is the
`x-signed-headers` declaration line itself.  The hypothesis is the
`net/http` invariant that stored header keys are canonical-form tokens. -/
theorem canonize_header_section_spec (req : Request) (body : String)
    (hh : ∀ kv ∈ req.header, isCanonKey kv.1) :
    Canonize req body =
      canonizeTarget req ++ "\n" ++ specHeaderSection req ++ body ∧
    (∃ front, specHeaderSection req =
      front ++ specHeaderLine req "x-signed-headers" ∧
      specHeaderLine req "x-signed-headers" =
        "x-signed-headers: " ++ String.intercalate ", "
          ((specHeaderValues req "x-signed-headers").map trimSpace) ++ "\n") := by
  constructor
  · unfold Canonize
    have hnames : signedHeaderNames req = specSignedNames req := by
      unfold signedHeaderNames specSignedNames
      have hkey : canonicalHeaderKey "x-signed-headers" =
          canonicalHeaderKey "X-Signed-Headers" := by decide
      rw [headerGet, headerGet, hkey]
    have hf : headerLine req = specHeaderLine req :=
      funext (headerLine_eq_spec req hh)
    rw [hnames, hf]
    rfl
  · refine ⟨String.join ((goSplit (headerGet req.header "X-Signed-Headers") ' ').map
      (specHeaderLine req)), ?_, ?_⟩
    · unfold specHeaderSection specSignedNames
      rw [List.map_append, string_join_append]
      simp [String.join]
    · unfold specHeaderLine
      rw [show goToLower "x-signed-headers" ++ ": " = "x-signed-headers: " by decide]

/-- Witness for C4: a concrete request whose signed headers include `host`
(substituted from the request's host field) and a twice-occurring,
whitespace-padded `Date` header. -/
theorem canonize_header_section_spec_witness :
    Canonize
      { method := "GET", url := { escapedPath := "/", rawQuery := "", host := "u:1" },
        host := "h:1",
        header := [("X-Signed-Headers", ["host date"]), ("Date", [" d1 ", "d2"])] }
      "B" =
      canonizeTarget
        { method := "GET", url := { escapedPath := "/", rawQuery := "", host := "u:1" },
          host := "h:1",
          header := [("X-Signed-Headers", ["host date"]), ("Date", [" d1 ", "d2"])] } ++
        "\n" ++
        specHeaderSection
          { method := "GET", url := { escapedPath := "/", rawQuery := "", host := "u:1" },
            host := "h:1",
            header := [("X-Signed-Headers", ["host date"]), ("Date", [" d1 ", "d2"])] } ++
        "B" ∧
    (∃ front, specHeaderSection
        { method := "GET", url := { escapedPath := "/", rawQuery := "", host := "u:1" },
          host := "h:1",
          header := [("X-Signed-Headers", ["host date"]), ("Date", [" d1 ", "d2"])] } =
      front ++ specHeaderLine
        { method := "GET", url := { escapedPath := "/", rawQuery := "", host := "u:1" },
          host := "h:1",
          header := [("X-Signed-Headers", ["host date"]), ("Date", [" d1 ", "d2"])] }
        "x-signed-headers" ∧
      specHeaderLine
        { method := "GET", url := { escapedPath := "/", rawQuery := "", host := "u:1" },
          host := "h:1",
          header := [("X-Signed-Headers", ["host date"]), ("Date", [" d1 ", "d2"])] }
        "x-signed-headers" =
        "x-signed-headers: " ++ String.intercalate ", "
          ((specHeaderValues
            { method := "GET", url := { escapedPath := "/", rawQuery := "", host := "u:1" },
              host := "h:1",
              header := [("X-Signed-Headers", ["host date"]), ("Date", [" d1 ", "d2"])] }
            "x-signed-headers").map trimSpace) ++ "\n") :=
  canonize_header_section_spec
    { method := "GET", url := { escapedPath := "/", rawQuery := "", host := "u:1" },
      host := "h:1",
      header := [("X-Signed-Headers", ["host date"]), ("Date", [" d1 ", "d2"])] }
    "B" (by decide)

/-! ## Supporting lemmas: base64 encode/decode round trip -/

theorem b64Index_encChar : ∀ n : Nat, n < 64 →
    b64Index (b64EncChar true n) = some n := by decide

theorem encChar_not_cr_lf : ∀ u : Bool, ∀ n : Nat, n < 64 →
    (decide ¬(b64EncChar u n = '\x0d' ∨ b64EncChar u n = '\x0a')) = true := by
  decide

theorem encChar_ne_pad : ∀ u : Bool, ∀ n : Nat, n < 64 →
    b64EncChar u n ≠ '=' := by decide

theorem encChar_remap : ∀ u : Bool, ∀ n : Nat, n < 64 →
    (if (if b64EncChar u n = '+' then '-' else b64EncChar u n) = '/' then '_'
     else if b64EncChar u n = '+' then '-' else b64EncChar u n) =
      b64EncChar true n := by decide

theorem encChunks_bound (u : Bool) : ∀ bs : List Nat,
    (∀ b ∈ bs, b < 256) → ∀ c ∈ b64EncChunks u bs, ∃ n, n < 64 ∧ c = b64EncChar u n
  | [], _, c, hc => absurd hc (List.not_mem_nil c)
  | [b0], h, c, hc => by
    have hb : b0 < 256 := h b0 (by simp)
    simp only [b64EncChunks, List.mem_cons, List.not_mem_nil, or_false] at hc
    rcases hc with rfl | rfl
    · exact ⟨b0 / 4, by omega, rfl⟩
    · exact ⟨(b0 % 4) * 16, by omega, rfl⟩
  | [b0, b1], h, c, hc => by
    have hb0 : b0 < 256 := h b0 (by simp)
    have hb1 : b1 < 256 := h b1 (by simp)
    simp only [b64EncChunks, List.mem_cons, List.not_mem_nil, or_false] at hc
    rcases hc with rfl | rfl | rfl
    · exact ⟨b0 / 4, by omega, rfl⟩
    · exact ⟨(b0 % 4) * 16 + b1 / 16, by omega, rfl⟩
    · exact ⟨(b1 % 16) * 4, by omega, rfl⟩
  | b0 :: b1 :: b2 :: rest, h, c, hc => by
    have hb0 : b0 < 256 := h b0 (by simp)
    have hb1 : b1 < 256 := h b1 (by simp)
    have hb2 : b2 < 256 := h b2 (by simp)
    have hrest : ∀ b ∈ rest, b < 256 := fun b hb => h b (by simp [hb])
    simp only [b64EncChunks, List.mem_cons] at hc
    rcases hc with rfl | rfl | rfl | rfl | hc
    · exact ⟨b0 / 4, by omega, rfl⟩
    · exact ⟨(b0 % 4) * 16 + b1 / 16, by omega, rfl⟩
    · exact ⟨(b1 % 16) * 4 + b2 / 64, by omega, rfl⟩
    · exact ⟨b2 % 64, by omega, rfl⟩
    · exact encChunks_bound u rest hrest c hc

theorem decode_encode : ∀ bs : List Nat,
    (∀ b ∈ bs, b < 256) → b64DecodeChunks (b64EncChunks true bs) = some bs
  | [], _ => rfl
  | [b0], h => by
    have hb : b0 < 256 := h b0 (by simp)
    simp only [b64EncChunks, b64DecodeChunks,
      b64Index_encChar (b0 / 4) (by omega),
      b64Index_encChar ((b0 % 4) * 16) (by omega), Option.bind_eq_bind,
      Option.some_bind, Option.pure_def, Option.some.injEq, List.cons.injEq, and_true]
    omega
  | [b0, b1], h => by
    have hb0 : b0 < 256 := h b0 (by simp)
    have hb1 : b1 < 256 := h b1 (by simp)
    simp only [b64EncChunks, b64DecodeChunks,
      b64Index_encChar (b0 / 4) (by omega),
      b64Index_encChar ((b0 % 4) * 16 + b1 / 16) (by omega),
      b64Index_encChar ((b1 % 16) * 4) (by omega), Option.bind_eq_bind,
      Option.some_bind, Option.pure_def, Option.some.injEq, List.cons.injEq, and_true]
    omega
  | b0 :: b1 :: b2 :: rest, h => by
    have hb0 : b0 < 256 := h b0 (by simp)
    have hb1 : b1 < 256 := h b1 (by simp)
    have hb2 : b2 < 256 := h b2 (by simp)
    have hrest : ∀ b ∈ rest, b < 256 := fun b hb => h b (by simp [hb])
    have ih := decode_encode rest hrest
    simp only [b64EncChunks, b64DecodeChunks,
      b64Index_encChar (b0 / 4) (by omega),
      b64Index_encChar ((b0 % 4) * 16 + b1 / 16) (by omega),
      b64Index_encChar ((b1 % 16) * 4 + b2 / 64) (by omega),
      b64Index_encChar (b2 % 64) (by omega), ih, Option.bind_eq_bind,
      Option.some_bind, Option.pure_def, Option.some.injEq, List.cons_append, List.nil_append,
      List.cons.injEq, and_true]
    omega

theorem encChunks_map_remap (u : Bool) : ∀ bs : List Nat,
    (∀ b ∈ bs, b < 256) →
    ((b64EncChunks u bs).map (fun c => if c = '+' then '-' else c)).map
        (fun c => if c = '/' then '_' else c) =
      b64EncChunks true bs
  | [], _ => rfl
  | [b0], h => by
    have hb : b0 < 256 := h b0 (by simp)
    simp only [b64EncChunks, List.map_cons, List.map_nil]
    rw [encChar_remap u (b0 / 4) (by omega),
      encChar_remap u ((b0 % 4) * 16) (by omega)]
  | [b0, b1], h => by
    have hb0 : b0 < 256 := h b0 (by simp)
    have hb1 : b1 < 256 := h b1 (by simp)
    simp only [b64EncChunks, List.map_cons, List.map_nil]
    rw [encChar_remap u (b0 / 4) (by omega),
      encChar_remap u ((b0 % 4) * 16 + b1 / 16) (by omega),
      encChar_remap u ((b1 % 16) * 4) (by omega)]
  | b0 :: b1 :: b2 :: rest, h => by
    have hb0 : b0 < 256 := h b0 (by simp)
    have hb1 : b1 < 256 := h b1 (by simp)
    have hb2 : b2 < 256 := h b2 (by simp)
    have hrest : ∀ b ∈ rest, b < 256 := fun b hb => h b (by simp [hb])
    have ih := encChunks_map_remap u rest hrest
    simp only [b64EncChunks, List.map_cons] at ih ⊢
    rw [encChar_remap u (b0 / 4) (by omega),
      encChar_remap u ((b0 % 4) * 16 + b1 / 16) (by omega),
      encChar_remap u ((b1 % 16) * 4 + b2 / 64) (by omega),
      encChar_remap u (b2 % 64) (by omega), ih]

theorem b64Pad_all_eq (len : Nat) : ∀ c ∈ b64Pad len, c = '=' := by
  intro c hc
  unfold b64Pad at hc
  split_ifs at hc <;> simp_all

theorem dropWhile_append_all {α : Type} (p : α → Bool) : ∀ (xs ys : List α),
    (∀ x ∈ xs, p x = true) → (xs ++ ys).dropWhile p = ys.dropWhile p
  | [], _, _ => rfl
  | x :: xs, ys, h => by
    have hx : p x = true := h x (by simp)
    simp only [List.cons_append, List.dropWhile_cons, hx, if_true]
    exact dropWhile_append_all p xs ys (fun a ha => h a (by simp [ha]))

theorem trimRightEq_append_pad (A P : List Char) (hP : ∀ c ∈ P, c = '=')
    (hA : ∀ c ∈ A, c ≠ '=') : trimRightEq ⟨A ++ P⟩ = ⟨A⟩ := by
  apply String.ext
  show ((A ++ P).reverse.dropWhile (fun c => decide (c = '='))).reverse = A
  rw [List.reverse_append]
  rw [dropWhile_append_all _ P.reverse A.reverse (fun c hc => by
    have := hP c (List.mem_reverse.mp hc)
    simp [this])]
  cases hAr : A.reverse with
  | nil =>
    have hAnil : A = [] := by simpa using congrArg List.reverse hAr
    simp [hAnil]
  | cons c rest =>
    have hc : c ∈ A := by
      have : c ∈ A.reverse := by rw [hAr]; simp
      exact List.mem_reverse.mp this
    have hcf : (decide (c = '=')) = false := by simp [hA c hc]
    simp only [List.dropWhile_cons, hcf, Bool.false_eq_true, if_false]
    rw [← hAr, List.reverse_reverse]

/-- Remapping `+` to `-` and `/` to `_` and stripping the `=` padding turns
any of the four base64 encodings of a byte list into its unpadded URL-safe
encoding. -/
theorem remap_strip_encode (u p : Bool) (k : List Nat)
    (hk : ∀ b ∈ k, b < 256) :
    trimRightEq (replaceChar '/' '_' (replaceChar '+' '-' (base64Encode u p k))) =
      ⟨b64EncChunks true k⟩ := by
  have hdata : (replaceChar '/' '_' (replaceChar '+' '-' (base64Encode u p k))).data
      = b64EncChunks true k ++ (if p then b64Pad k.length else []) := by
    show (((b64EncChunks u k ++ (if p then b64Pad k.length else [])).map
        (fun c => if c = '+' then '-' else c)).map
        (fun c => if c = '/' then '_' else c)) = _
    rw [List.map_append, List.map_append, encChunks_map_remap u k hk]
    congr 1
    cases p
    · rfl
    · show ((b64Pad k.length).map _).map _ = b64Pad k.length
      rw [List.map_map]
      have hid : ∀ c ∈ b64Pad k.length,
          ((fun c => if c = '/' then '_' else c) ∘
            (fun c => if c = '+' then '-' else c)) c = c := by
        intro c hc
        rw [b64Pad_all_eq k.length c hc]
        rfl
      rw [List.map_congr_left hid]
      simp
  rw [congrArg trimRightEq (String.ext hdata)]
  refine trimRightEq_append_pad _ _ ?_ ?_
  · cases p
    · intro c hc
      exact absurd hc (List.not_mem_nil c)
    · exact b64Pad_all_eq k.length
  · intro c hc
    obtain ⟨n, hn, rfl⟩ := encChunks_bound true k hk c hc
    exact encChar_ne_pad true n hn

/-- Decoding the unpadded URL-safe encoding recovers the bytes. -/
theorem b64DecodeRawURL_encode (k : List Nat) (hk : ∀ b ∈ k, b < 256) :
    b64DecodeRawURL ⟨b64EncChunks true k⟩ = some k := by
  unfold b64DecodeRawURL
  show b64DecodeChunks ((b64EncChunks true k).filter _) = some k
  have hfil : (b64EncChunks true k).filter
      (fun c => decide ¬(c = '\x0d' ∨ c = '\x0a')) = b64EncChunks true k := by
    apply List.filter_eq_self.mpr
    intro c hc
    obtain ⟨n, hn, rfl⟩ := encChunks_bound true k hk c hc
    exact encChar_not_cr_lf true n hn
  rw [hfil]
  exact decode_encode k hk

/-- Claim C9: `NewVerifier` remaps `+` to `-` and `/` to `_`, strips
trailing `=`, base64-decodes, and returns a `Verifier` holding the decoded
key exactly when decoding succeeds with 32 bytes, otherwise the
distinguished invalid-public-key error (`none`); consequently standard and
URL-safe base64, padded or unpadded, are all accepted for any valid
32-byte key, and the failure surfaces at construction time. -/
theorem newVerifier_lenient_base64 (s : String) (k : List Nat) (u p : Bool) :
    (∀ w : Verifier, NewVerifier s = some w →
      b64DecodeRawURL (trimRightEq (replaceChar '/' '_'
        (replaceChar '+' '-' s))) = some w.pk ∧ w.pk.length = 32) ∧
    (b64DecodeRawURL (trimRightEq (replaceChar '/' '_'
        (replaceChar '+' '-' s))) = some k → k.length = 32 →
      NewVerifier s = some ⟨k⟩) ∧
    ((∀ k2 : List Nat,
        b64DecodeRawURL (trimRightEq (replaceChar '/' '_'
          (replaceChar '+' '-' s))) = some k2 → k2.length ≠ 32) →
      NewVerifier s = none) ∧
    (k.length = 32 → (∀ b ∈ k, b < 256) →
      NewVerifier (base64Encode u p k) = some ⟨k⟩) := by
  refine ⟨?_, ?_, ?_, ?_⟩
  · intro w hw
    simp only [NewVerifier] at hw
    rcases hd : b64DecodeRawURL (trimRightEq (replaceChar '/' '_'
        (replaceChar '+' '-' s))) with _ | pkv <;> simp only [hd] at hw
    · exact absurd hw (by simp)
    · by_cases hl : pkv.length = 32
      · rw [if_pos hl] at hw
        have hw2 : (⟨pkv.take 32⟩ : Verifier) = w := Option.some.inj hw
        have hpk : pkv.take 32 = w.pk := congrArg Verifier.pk hw2
        have ht : pkv.take 32 = pkv := List.take_of_length_le (le_of_eq hl)
        refine ⟨?_, ?_⟩
        · rw [← hpk, ht]
        · rw [← hpk, ht]
          exact hl
      · rw [if_neg hl] at hw
        exact absurd hw (by simp)
  · intro hd hl
    have ht : k.take 32 = k := List.take_of_length_le (le_of_eq hl)
    simp only [NewVerifier, hd]
    rw [if_pos hl, ht]
  · intro hall
    simp only [NewVerifier]
    rcases hd : b64DecodeRawURL (trimRightEq (replaceChar '/' '_'
        (replaceChar '+' '-' s))) with _ | k2
    · simp [hd]
    · simp [hd, hall k2 hd]
  · intro hl hbytes
    have ht : k.take 32 = k := List.take_of_length_le (le_of_eq hl)
    simp only [NewVerifier, remap_strip_encode u p k hbytes,
      b64DecodeRawURL_encode k hbytes]
    rw [if_pos hl, ht]

/-- Witness for C9: a 32-byte key in padded standard base64 and in
unpadded URL-safe base64 both construct the same verifier. -/
theorem newVerifier_lenient_base64_witness :
    NewVerifier (base64Encode false true (List.replicate 32 0)) =
      some ⟨List.replicate 32 0⟩ ∧
    NewVerifier (base64Encode true false (List.replicate 32 255)) =
      some ⟨List.replicate 32 255⟩ :=
  ⟨(newVerifier_lenient_base64 "" (List.replicate 32 0) false true).2.2.2
      (by decide) (by decide),
   (newVerifier_lenient_base64 "" (List.replicate 32 255) true false).2.2.2
      (by decide) (by decide)⟩

end GoSignature
